import Mathlib

/-!
Package cerrors: errors carrying a status code, a message, a cause and a stack.

A shallow embedding of `cerrors.go` and proofs of its contract.

Modelling conventions.

* A Go `error` is an interface value: `nil`, a pointer to a `withCode`, or a
  value of some type declared outside the package.  A value of an outside type
  is described by what the package can observe of it: the text of `Error()`,
  the result of a `Code() int` method when its type has one, the result of
  `Unwrap()`, what it writes under `%+v` when its type has a formatting
  hook, and the status of `GRPCStatus()` when its type has that method.
* Go's `int` is 64 bits wide and the package never does arithmetic on a code,
  so codes are `Int`; a gRPC status code is a `uint32`, which `int(...)`
  converts without loss.
* `status.FromError`, `fmt.Sprintf` applied to operands, the stack capture
  `callers()` and the rendering `(*stack).Format` live outside `cerrors.go`;
  they are parameters (`Env`).  Where a statement is about the capture itself,
  `callers` is the capture the spec describes; where one is about how far
  `status.FromError` looks, `statusFromError` follows the gRPC library.
* Strings are sequences of characters; Go strings holding invalid UTF-8 are
  outside the model.
-/

namespace Cerrors

/-- One call frame: function, file and line. -/
structure Frame where
  function : String
  file : String
  line : Nat
deriving DecidableEq, Repr

/-- Modelled from the spec: the type `stack` (declared outside `cerrors.go`) is
an immutable ordered sequence of (file, line, function) frames captured once at
construction. -/
structure stack where
  frames : List Frame
deriving DecidableEq, Repr

/-- What is observable of an error value whose type is declared outside the
package. -/
structure Foreign where
  /-- Result of `Error()`. -/
  text : String
  /-- Result of `Code()` when the dynamic type has a method `Code() int`. -/
  code : Option Int
  /-- Output of the type's own `Format` under `%+v`, when it has one. -/
  verbose : Option String
  /-- Numeric code of the status returned by `GRPCStatus()`, when the dynamic
  type has that method: the value is itself a gRPC status error. -/
  status : Option Nat := none
deriving DecidableEq, Repr

mutual
/-- A Go `error` interface value. -/
inductive error where
  | nil
  | ptr (w : withCode)
  | foreign (f : Foreign) (unwrap : error)
/-- The struct `withCode` (lines 66-71); the embedded `*stack` is the first
field. -/
inductive withCode where
  | mk (stack : stack) (code : Int) (cause : error) (message : String)
end

/-- Field `stack` of `withCode`. -/
def withCode.stack : withCode → stack
  | .mk s _ _ _ => s

/-- Field `code` of `withCode`. -/
def withCode.code : withCode → Int
  | .mk _ c _ _ => c

/-- Field `cause` of `withCode`. -/
def withCode.cause : withCode → error
  | .mk _ _ e _ => e

/-- Field `message` of `withCode`. -/
def withCode.message : withCode → String
  | .mk _ _ _ m => m

/-- A value passed in a variadic `...any` operand list. -/
inductive any where
  | int (v : Int)
  | str (v : String)
  | bool (v : Bool)
  | err (e : error)

/-- The services the package calls but does not define. -/
structure Env where
  /-- `fmt.Sprintf(format, args...)` for a non-empty operand list. -/
  sprintfOperands : String → List any → String
  /-- `status.FromError(err)`: `some s` when it reports `ok` with a status of
  numeric code `s`, `none` when it reports `!ok`. -/
  FromError : error → Option Nat
  /-- `callers()`, given the call stack at the point of the call (innermost
  frame first). -/
  callers : List Frame → stack
  /-- What `(*stack).Format` writes for the verb `v` with the `+` flag. -/
  stackFormat : stack → String

/-- `(*withCode).Error` (lines 73-78).  The call `w.cause.Error()` dispatches on
the dynamic type of the cause. -/
def withCode.Error : withCode → String
  | .mk _ _ .nil message => message
  | .mk _ _ (.ptr c) message => message ++ ": " ++ c.Error
  | .mk _ _ (.foreign f _) message => message ++ ": " ++ f.text

/-- `(*withCode).Unwrap` (line 80). -/
def withCode.Unwrap (w : withCode) : error := w.cause

/-- `(*withCode).Cause` (line 82). -/
def withCode.Cause (w : withCode) : error := w.cause

/-- `(*withCode).Code` (line 84). -/
def withCode.Code (w : withCode) : Int := w.code

/-! ## `fmt.Sprintf` on an empty operand list

With no operands the output of `fmt.Sprintf` depends on the format alone.  The
definitions below follow `doPrintf` of package `fmt` with `len(a) = 0`: no verb
ever finds an operand, so `argNum` stays `0`, the fast path for simple verbs is
never taken and no argument index is ever in range. -/

/-- `tooLarge` of package `fmt`. -/
def tooLarge (x : Int) : Bool := x > 1000000 || x < -1000000

/-- The loop of `parsenum`: `num`, `isnum` and the text from `newi` on.  On
overflow `newi` is the end of the text. -/
def parsenumLoop : List Char → Int → Bool → Int × Bool × List Char
  | [], num, isnum => (num, isnum, [])
  | c :: cs, num, isnum =>
    if '0' ≤ c ∧ c ≤ '9' then
      if tooLarge num then (0, false, [])
      else parsenumLoop cs (num * 10 + (Int.ofNat c.toNat - Int.ofNat '0'.toNat)) true
    else (num, isnum, c :: cs)

/-- `parsenum(s, start, end)` of package `fmt`, given the text `s[start:end]`. -/
def parsenum (s : List Char) : Int × Bool × List Char :=
  parsenumLoop s 0 false

/-- Length in bytes of the UTF-8 encoding. -/
def byteLen (s : List Char) : Nat := (s.map Char.utf8Size).sum

/-- `parseArgNumber(format)` of package `fmt`, `format` starting at `[`:
the index, the text after the `wid` bytes consumed, and `ok`. -/
def parseArgNumber (format : List Char) : Int × List Char × Bool :=
  if byteLen format < 3 then (0, format.drop 1, false)
  else
    match (format.drop 1).span (fun c => c != ']') with
    | (inner, _ :: rest) =>
      match parsenum inner with
      | (width, ok, remaining) =>
        if !ok || !remaining.isEmpty then (0, rest, false) else (width - 1, rest, true)
    | (_, []) => (0, format.drop 1, false)

/-- `(*pp).argNumber` of package `fmt` with `numArgs = 0`: the text from `newi`
on, `found`, and the updated `goodArgNum`.  No index is below `numArgs`, so an
index that is present always clears `goodArgNum`. -/
def argNumber (format : List Char) (goodArgNum : Bool) : List Char × Bool × Bool :=
  match format with
  | '[' :: _ =>
    match parseArgNumber format with
    | (_, rest, ok) => (rest, ok, false)
  | _ => (format, false, goodArgNum)

/-- The flag characters skipped after `%`. -/
def isFlag (c : Char) : Bool :=
  c == '#' || c == '0' || c == '+' || c == '-' || c == ' '

/-- The width step of `doPrintf`: what is written, the text that follows,
`afterIndex` and `goodArgNum`. -/
def widthStep (s : List Char) (afterIndex goodArgNum : Bool) :
    List Char × List Char × Bool × Bool :=
  match s with
  | '*' :: t => ("%!(BADWIDTH)".data, t, false, goodArgNum)
  | _ =>
    match parsenum s with
    | (_, widPresent, t) => ([], t, afterIndex, if afterIndex && widPresent then false else goodArgNum)

/-- The precision step of `doPrintf`, entered under `i+1 < end && format[i] == '.'`:
a dot is read as a precision only when something follows it, so a dot that ends
the format is left to be the verb. -/
def precStep (s : List Char) (afterIndex goodArgNum : Bool) :
    List Char × List Char × Bool × Bool :=
  match s with
  | '.' :: c :: t =>
    match argNumber (c :: t) (if afterIndex then false else goodArgNum) with
    | (u, found, good) =>
      match u with
      | '*' :: v => ("%!(BADPREC)".data, v, false, good)
      | _ =>
        match parsenum u with
        | (_, _, v) => ([], v, found, good)
  | _ => ([], s, afterIndex, goodArgNum)

/-- One verb of `doPrintf`, given the text after its `%`: what is written, and
the text that follows (`none` when the format ended before a verb). -/
def verbStep (s : List Char) : List Char × Option (List Char) :=
  match argNumber (s.dropWhile isFlag) true with
  | (s1, afterIndex1, good1) =>
    match widthStep s1 afterIndex1 good1 with
    | (out2, s2, afterIndex2, good2) =>
      match precStep s2 afterIndex2 good2 with
      | (out3, s3, afterIndex3, good3) =>
        match (if afterIndex3 then (s3, afterIndex3, good3) else argNumber s3 good3) with
        | (s4, _, good4) =>
          match s4 with
          | [] => (out2 ++ out3 ++ "%!(NOVERB)".data, none)
          | verb :: rest =>
            if verb = '%' then (out2 ++ out3 ++ ['%'], some rest)
            else if !good4 then (out2 ++ out3 ++ "%!".data ++ [verb] ++ "(BADINDEX)".data, some rest)
            else (out2 ++ out3 ++ "%!".data ++ [verb] ++ "(MISSING)".data, some rest)

/-- The `formatLoop` of `doPrintf`; each round consumes at least the `%` it
starts from, so `fuel` above the length of the format is never used up. -/
def doPrintf : Nat → List Char → List Char
  | 0, _ => []
  | fuel + 1, format =>
    match format.span (fun c => c != '%') with
    | (lit, []) => lit
    | (lit, _ :: afterPercent) =>
      match verbStep afterPercent with
      | (out, none) => lit ++ out
      | (out, some rest) => lit ++ out ++ doPrintf fuel rest

/-- `fmt.Sprintf(format, args...)`. -/
def Sprintf (env : Env) (format : String) (args : List any) : String :=
  match args with
  | [] => String.mk (doPrintf (format.data.length + 1) format.data)
  | _ :: _ => env.sprintfOperands format args

/-! ## Construction and code extraction -/

/-- The frame a function of the package adds to the call stack while it runs,
at the line of its call. -/
def libFrame (function : String) (line : Nat) : Frame :=
  { function := "cerrors." ++ function, file := "cerrors.go", line := line }

/-- The type assertion `err.(interface{ Code() int })` of line 53 followed by
the call `e.Code()`: `none` when the dynamic type has no such method. -/
def codeAccessor : error → Option Int
  | .nil => none
  | .ptr w => some w.Code
  | .foreign f _ => f.code

/-- `Code` (lines 47-63). -/
def Code (env : Env) (err : error) : Int :=
  match err with
  | .nil => 0
  | _ =>
    match codeAccessor err with
    | some k => k
    | none =>
      match env.FromError err with
      | some s => Int.ofNat s
      | none => 500

mutual
/-- `errors.As(err, &gs)` with `gs` of type `interface{ GRPCStatus() *Status }`,
then `gs.GRPCStatus().Code()`: the first gRPC status error on the `Unwrap` chain
of `err`, `err` itself included, as `status.FromError` of
`google.golang.org/grpc/status` looks for it. -/
def error.asStatus : error → Option Nat
  | .nil => none
  | .ptr w => w.asStatus
  | .foreign f unwrap =>
    match f.status with
    | some s => some s
    | none => unwrap.asStatus
/-- A `withCode` has no `GRPCStatus` method; `errors.As` goes on to what its
`Unwrap()` returns (line 80). -/
def withCode.asStatus : withCode → Option Nat
  | .mk _ _ cause _ => cause.asStatus
end

/-- `status.FromError(err)` of `google.golang.org/grpc/status`: for nil it
reports `ok` with a nil status, whose code is 0; otherwise it reports `ok` with
the status of `err` or of the first status error that `err` wraps, and `!ok`
when there is none. -/
def statusFromError (err : error) : Option Nat :=
  match err with
  | .nil => some 0
  | _ => err.asStatus

/-- `New` (lines 11-17); `cs` is the call stack of the caller. -/
def New (env : Env) (cs : List Frame) (format : String) (args : List any) : error :=
  .ptr (.mk (env.callers (libFrame "New" 14 :: cs)) 0 .nil (Sprintf env format args))

/-- `WithCode` (lines 19-26). -/
def WithCode (env : Env) (cs : List Frame) (code : Int) (format : String)
    (args : List any) : error :=
  .ptr (.mk (env.callers (libFrame "WithCode" 23 :: cs)) code .nil (Sprintf env format args))

/-- `WrapC` (lines 33-45). -/
def WrapC (env : Env) (cs : List Frame) (err : error) (code : Int) (format : String)
    (args : List any) : error :=
  match err with
  | .nil => .nil
  | _ => .ptr (.mk (env.callers (libFrame "WrapC" 42 :: cs)) code err (Sprintf env format args))

/-- `Wrap` (lines 28-31). -/
def Wrap (env : Env) (cs : List Frame) (err : error) (format : String)
    (args : List any) : error :=
  WrapC env (libFrame "Wrap" 30 :: cs) err (Code env err) format args

/-- A method call `err.Error()` on an interface value; calling it on `nil`
panics (`none`). -/
def error.Error : error → Option String
  | .nil => none
  | .ptr w => some w.Error
  | .foreign f _ => some f.text

/-- The messages of the layers of a cause chain, outermost first; a leaf of an
outside type contributes its text. -/
def withCode.layers : withCode → List String
  | .mk _ _ .nil message => [message]
  | .mk _ _ (.ptr c) message => message :: c.layers
  | .mk _ _ (.foreign f _) message => [message, f.text]

/-! ## Formatted rendering -/

/-- What `fmt.Fprintf(s, "%+v", e)` writes for a value `e` of an outside type:
the output of its own `Format` when it has one, the text of `Error()`
otherwise. -/
def Foreign.plusV (f : Foreign) : String :=
  match f.verbose with
  | some out => out
  | none => f.text

/-- The branch `case s.Flag('+')` of `(*withCode).Format` (lines 90-95): the text
written.  `fmt.Fprintf(s, "%+v\n", w.Cause())` hands a cause that is a
`withCode` back to `Format` with the `+` flag and the verb `v`. -/
def withCode.formatPlus (env : Env) : withCode → String
  | .mk st _ .nil message => message ++ env.stackFormat st
  | .mk st _ (.ptr c) message => c.formatPlus env ++ "\n" ++ message ++ env.stackFormat st
  | .mk st _ (.foreign f _) message => f.plusV ++ "\n" ++ message ++ env.stackFormat st

/-- `(*withCode).Format` (lines 86-103): the text written to the state `s`, of
which the code consults `s.Flag('+')` only (`plus`).  The `default` branch of
the verb `v` calls `w.Format(s, 's')`, which writes `w.Error()` at line 101; a
verb other than `v`, `s` and `q` matches no case. -/
def withCode.Format (env : Env) (w : withCode) (plus : Bool) (verb : Char) : String :=
  if verb = 'v' then
    if plus then w.formatPlus env
    else w.Error
  else if verb = 's' ∨ verb = 'q' then w.Error
  else ""

/-- What `fmt.Fprintf(s, "%+v", err)` writes for an error operand: a `withCode`
is asked through its `Format` with the `+` flag and the verb `v`, a nil operand
prints as `<nil>`. -/
def error.fprintPlusV (env : Env) : error → String
  | .nil => "<nil>"
  | .ptr c => c.Format env true 'v'
  | .foreign f _ => f.plusV

/-- The `withCode` layers of a cause chain, outermost first. -/
def withCode.chain : withCode → List withCode
  | .mk st code .nil message => [.mk st code .nil message]
  | .mk st code (.ptr c) message => .mk st code (.ptr c) message :: c.chain
  | .mk st code (.foreign f u) message => [.mk st code (.foreign f u) message]

/-- The value of an outside type that ends a cause chain, when there is one. -/
def withCode.leaf : withCode → Option Foreign
  | .mk _ _ .nil _ => none
  | .mk _ _ (.ptr c) _ => c.leaf
  | .mk _ _ (.foreign f _) _ => some f

/-- The block one layer contributes to the `%+v` rendering: its message followed
by its stack. -/
def withCode.block (env : Env) (w : withCode) : String :=
  w.message ++ env.stackFormat w.stack

/-- What the leaf of an outside type that ends a chain puts in front of the
blocks of the `%+v` rendering: its own rendering and a newline. -/
def leafLead (w : withCode) : String :=
  match w.leaf with
  | none => ""
  | some f => f.plusV ++ "\n"

/-! ## Stack capture -/

/-- Whether a frame belongs to a function of this package. -/
def isLibFrame (f : Frame) : Bool :=
  "cerrors.".data.isPrefixOf f.function.data

/-- Modelled from the spec: `callers()`, declared outside `cerrors.go`, takes a
snapshot of the current call stack "excluding frames belonging to this library's
own constructors so the first reported frame is the caller's". -/
def callers (cs : List Frame) : stack :=
  { frames := cs.filter (fun f => !isLibFrame f) }

/-! ## Repeated wrapping -/

/-- One `Wrap` per entry, innermost first; an entry is the call stack, the
format and the operands of that call. -/
def wrapAll (env : Env) (err : error) : List (List Frame × String × List any) → error
  | [] => err
  | (cs, format, args) :: rest => wrapAll env (Wrap env cs err format args) rest

/-! ## Sample values -/

/-- An error of an outside type with a `Code() int` method returning 7. -/
def codedForeign : error :=
  .foreign { text := "quota exceeded", code := some 7, verbose := none } .nil

/-- An error of an outside type with no `Code()` method. -/
def plainForeign : error :=
  .foreign { text := "EOF", code := none, verbose := none } .nil

/-- A gRPC status error: no `Code()` method, recognised by `status.FromError`. -/
def statusForeign : error :=
  .foreign { text := "rpc error: code = NotFound desc = missing", code := none, verbose := none,
             status := some 5 } .nil

/-- A gRPC status error whose type also has a `Code() int` method, returning 0. -/
def zeroCodedStatus : error :=
  .foreign { text := "rpc error: code = NotFound desc = gone", code := some 0, verbose := none,
             status := some 5 } .nil

/-- An application frame. -/
def mainFrame : Frame :=
  { function := "main.run", file := "main.go", line := 12 }

/-- An environment for the examples: `status.FromError` recognises the texts
that start with `rpc error`, reporting code 5. -/
def demoEnv : Env where
  sprintfOperands := fun format _ => format
  FromError := fun e =>
    match e with
    | .foreign f _ => if "rpc error".data.isPrefixOf f.text.data then some 5 else none
    | _ => none
  callers := fun cs => { frames := cs.drop 1 }
  stackFormat := fun st =>
    String.join (st.frames.map (fun f => "\n" ++ f.function ++ "\n\t" ++ f.file))

/-- The environment of the examples with `status.FromError` as the gRPC library
has it. -/
def grpcEnv : Env :=
  { demoEnv with FromError := statusFromError }

/-- The value of `fmt.Errorf("outer: %w", WrapC(st, 404, "inner"))` for the
status error `st = statusForeign`: no `Code()` method, not itself a status
error, and `Unwrap()` returns the `withCode` of code 404. -/
def wrappedCoded : error :=
  .foreign { text := "outer: inner: rpc error: code = NotFound desc = missing", code := none,
             verbose := none, status := none }
    (WrapC grpcEnv [mainFrame] statusForeign 404 "inner" [])

/-- The environment of the examples with the stack capture of the spec. -/
def captureEnv : Env :=
  { demoEnv with callers := callers }

/-! ## The format loop never runs out of fuel -/

theorem parsenumLoop_length (s : List Char) :
    ∀ (num : Int) (isnum : Bool), (parsenumLoop s num isnum).2.2.length ≤ s.length := by
  induction s with
  | nil => intro num isnum; simp [parsenumLoop]
  | cons c cs ih =>
    intro num isnum
    unfold parsenumLoop
    split
    · split
      · simp
      · exact Nat.le_succ_of_le (ih _ _)
    · simp

theorem span_snd_length (p : Char → Bool) (l : List Char) :
    (l.span p).2.length ≤ l.length := by
  rw [List.span_eq_take_drop]
  exact (List.dropWhile_suffix p).length_le

theorem parseArgNumber_length (s : List Char) :
    (parseArgNumber s).2.1.length ≤ s.length := by
  unfold parseArgNumber
  have hspan := span_snd_length (fun c => c != ']') (s.drop 1)
  have hdrop : (s.drop 1).length ≤ s.length := by simp
  split
  · exact hdrop
  · split
    · rename_i inner x rest heq
      rw [heq] at hspan
      simp only [List.length_cons] at hspan
      have hrest : rest.length ≤ s.length := by omega
      split
      split <;> exact hrest
    · exact hdrop

theorem argNumber_length (s : List Char) (good : Bool) :
    (argNumber s good).1.length ≤ s.length := by
  unfold argNumber
  split
  · exact parseArgNumber_length _
  · exact Nat.le_refl _

theorem widthStep_length (s : List Char) (a g : Bool) :
    (widthStep s a g).2.1.length ≤ s.length := by
  unfold widthStep
  split
  · simp
  · exact parsenumLoop_length _ _ _

theorem precStep_length (s : List Char) (a g : Bool) :
    (precStep s a g).2.1.length ≤ s.length := by
  unfold precStep
  split
  · rename_i c t
    have h1 := argNumber_length (c :: t) (if a then false else g)
    generalize argNumber (c :: t) (if a then false else g) = r at h1
    obtain ⟨u, found, good⟩ := r
    simp only [List.length_cons] at h1 ⊢
    split
    · rename_i v
      simp only [List.length_cons] at h1 ⊢
      omega
    · have h2 := parsenumLoop_length u 0 false
      simp only [parsenum]
      exact Nat.le_trans h2 (Nat.le_trans h1 (Nat.le_succ _))
  · exact Nat.le_refl _

/-- A verb never hands back more text than it was given. -/
theorem verbStep_length (s rest : List Char) (h : (verbStep s).2 = some rest) :
    rest.length < s.length + 1 := by
  unfold verbStep at h
  simp only at h
  have h0 : (s.dropWhile isFlag).length ≤ s.length := (List.dropWhile_suffix isFlag).length_le
  have h1 := argNumber_length (s.dropWhile isFlag) true
  generalize argNumber (s.dropWhile isFlag) true = r1 at h h1
  have h2 := widthStep_length r1.1 r1.2.1 r1.2.2
  generalize widthStep r1.1 r1.2.1 r1.2.2 = r2 at h h2
  have h3 := precStep_length r2.2.1 r2.2.2.1 r2.2.2.2
  generalize precStep r2.2.1 r2.2.2.1 r2.2.2.2 = r3 at h h3
  have h4 : (if r3.2.2.1 = true then r3.2 else argNumber r3.2.1 r3.2.2.2).1.length
      ≤ r3.2.1.length := by
    split
    · exact Nat.le_refl _
    · exact argNumber_length _ _
  generalize (if r3.2.2.1 = true then r3.2 else argNumber r3.2.1 r3.2.2.2) = r4 at h h4
  obtain ⟨s4, a4, g4⟩ := r4
  simp only at h h4
  cases s4 with
  | nil => simp at h
  | cons verb tl =>
    have hr : rest = tl := by
      simp only at h
      split at h
      · simp only [Option.some.injEq] at h; exact h.symm
      · split at h <;> (simp only [Option.some.injEq] at h; exact h.symm)
    subst hr
    simp only [List.length_cons] at h4
    omega

theorem doPrintf_fuel : ∀ (n m : Nat) (s : List Char), s.length < n → s.length < m →
    doPrintf n s = doPrintf m s := by
  intro n
  induction n with
  | zero => intro m s h; omega
  | succ n ih =>
    intro m s hn hm
    cases m with
    | zero => omega
    | succ m =>
      unfold doPrintf
      have hspan := span_snd_length (fun c => c != '%') s
      generalize s.span (fun c => c != '%') = r at hspan
      obtain ⟨lit, tl⟩ := r
      cases tl with
      | nil => rfl
      | cons x afterPercent =>
        simp only [List.length_cons] at hspan
        simp only
        have hv := verbStep_length afterPercent
        generalize verbStep afterPercent = v at hv
        obtain ⟨out, o⟩ := v
        cases o with
        | none => rfl
        | some rest =>
          have := hv rest rfl
          simp only
          rw [ih m rest (by omega) (by omega)]

/-- `fmt.Sprintf` with no operands returns: any fuel above the length of the
format gives the same text as the fuel `Sprintf` runs with. -/
theorem Sprintf_fuel (env : Env) (format : String) (n : Nat) (h : format.data.length < n) :
    Sprintf env format [] = String.mk (doPrintf n format.data) := by
  simp only [Sprintf]
  rw [doPrintf_fuel (format.data.length + 1) n format.data (Nat.lt_succ_self _) h]

/-! ## Code extraction and wrapping -/

/-- C1: for every non-nil error `err`, every code `c` (zero included), every
format and operand list, `Code(WrapC(err, c, format, args...))` is `c`, whatever
code `err` carries. -/
theorem Code_WrapC (env : Env) (cs : List Frame) (err : error) (c : Int)
    (format : String) (args : List any) (h : err ≠ .nil) :
    Code env (WrapC env cs err c format args) = c := by
  cases err with
  | nil => exact absurd rfl h
  | ptr w => rfl
  | foreign f u => rfl

theorem Code_WrapC_witness :
    codedForeign ≠ .nil ∧ Code demoEnv codedForeign = 7 ∧
      Code demoEnv (WrapC demoEnv [] codedForeign 0 "ctx" []) = 0 :=
  ⟨fun h => error.noConfusion h, rfl,
    Code_WrapC demoEnv [] codedForeign 0 "ctx" [] (fun h => error.noConfusion h)⟩

/-- C2: for every non-nil error `err`, every format and operand list,
`Code(Wrap(err, format, args...))` equals `Code(err)`; in particular it is the
code stored in `err` when `err` is a `withCode`, and the result of the `Code()`
method when `err` is of an outside type that has one. -/
theorem Code_Wrap (env : Env) (cs : List Frame) (err : error)
    (format : String) (args : List any) (h : err ≠ .nil) :
    Code env (Wrap env cs err format args) = Code env err ∧
      (∀ w, err = .ptr w → Code env (Wrap env cs err format args) = w.code) ∧
      (∀ f u c0, err = .foreign f u → f.code = some c0 →
        Code env (Wrap env cs err format args) = c0) := by
  have key : Code env (Wrap env cs err format args) = Code env err := by
    cases err with
    | nil => exact absurd rfl h
    | ptr w => rfl
    | foreign f u => rfl
  refine ⟨key, ?_, ?_⟩
  · intro w hw
    rw [key, hw]
    rfl
  · intro f u c0 hf hc
    rw [key, hf]
    simp [Code, codeAccessor, hc]

theorem Code_Wrap_witness :
    Code demoEnv (Wrap demoEnv [] codedForeign "ctx" []) = 7 :=
  (Code_Wrap demoEnv [] codedForeign "ctx" [] (fun h => error.noConfusion h)).2.2
    _ _ 7 rfl rfl

/-- C3: `Wrap(nil, ...)` and `WrapC(nil, c, ...)` return nil; for a non-nil
`err` both return a non-nil pointer to a `withCode`; so the result is nil if and
only if `err` is nil. -/
theorem Wrap_nil_iff (env : Env) (cs : List Frame) (err : error) (c : Int)
    (format : String) (args : List any) :
    Wrap env cs .nil format args = .nil ∧
      WrapC env cs .nil c format args = .nil ∧
      (err ≠ .nil → (∃ w, Wrap env cs err format args = .ptr w) ∧
        (∃ w, WrapC env cs err c format args = .ptr w)) ∧
      (Wrap env cs err format args = .nil ↔ err = .nil) ∧
      (WrapC env cs err c format args = .nil ↔ err = .nil) := by
  refine ⟨rfl, rfl, ?_, ?_, ?_⟩
  · intro h
    cases err with
    | nil => exact absurd rfl h
    | ptr w => exact ⟨⟨_, rfl⟩, ⟨_, rfl⟩⟩
    | foreign f u => exact ⟨⟨_, rfl⟩, ⟨_, rfl⟩⟩
  · cases err with
    | nil => exact ⟨fun _ => rfl, fun _ => rfl⟩
    | ptr w => exact ⟨fun h => error.noConfusion h, fun h => error.noConfusion h⟩
    | foreign f u => exact ⟨fun h => error.noConfusion h, fun h => error.noConfusion h⟩
  · cases err with
    | nil => exact ⟨fun _ => rfl, fun _ => rfl⟩
    | ptr w => exact ⟨fun h => error.noConfusion h, fun h => error.noConfusion h⟩
    | foreign f u => exact ⟨fun h => error.noConfusion h, fun h => error.noConfusion h⟩

theorem Wrap_nil_iff_witness :
    (∃ w, Wrap demoEnv [] plainForeign "ctx" [] = .ptr w) ∧
      (∃ w, WrapC demoEnv [] plainForeign 5 "ctx" [] = .ptr w) :=
  (Wrap_nil_iff demoEnv [] plainForeign 5 "ctx" []).2.2.1 (fun h => error.noConfusion h)

/-- C4: `Code` is total, and on a non-nil error that has no `Code()` method and
that `status.FromError` does not recognise it returns the fallback 500
(`http.StatusInternalServerError`). -/
theorem Code_fallback (env : Env) (err : error) (h : err ≠ .nil)
    (hcode : codeAccessor err = none) (hstatus : env.FromError err = none) :
    Code env err = 500 := by
  cases err with
  | nil => exact absurd rfl h
  | ptr w => simp [codeAccessor] at hcode
  | foreign f u => simp only [Code, hcode, hstatus]

theorem Code_fallback_witness :
    plainForeign ≠ .nil ∧ codeAccessor plainForeign = none ∧
      demoEnv.FromError plainForeign = none ∧ Code demoEnv plainForeign = 500 :=
  ⟨fun h => error.noConfusion h, rfl, by decide,
    Code_fallback demoEnv plainForeign (fun h => error.noConfusion h) rfl (by decide)⟩

/-- C5: `Code(nil)` is 0. -/
theorem Code_nil (env : Env) : Code env .nil = 0 := rfl

/-- C6: on a non-nil error that has no `Code()` method and that
`status.FromError` recognises with numeric status `s`, `Code` returns `s`, and
so does `Code` of a `Wrap` of that error. -/
theorem Code_status (env : Env) (cs : List Frame) (err : error) (s : Nat)
    (format : String) (args : List any) (h : err ≠ .nil)
    (hcode : codeAccessor err = none) (hstatus : env.FromError err = some s) :
    Code env err = s ∧ Code env (Wrap env cs err format args) = s := by
  have key : Code env err = s := by
    cases err with
    | nil => exact absurd rfl h
    | ptr w => simp [codeAccessor] at hcode
    | foreign f u => simp only [Code, hcode, hstatus]; rfl
  refine ⟨key, ?_⟩
  cases err with
  | nil => exact absurd rfl h
  | ptr w => exact key
  | foreign f u => exact key

theorem Code_status_witness :
    statusForeign ≠ .nil ∧ codeAccessor statusForeign = none ∧
      demoEnv.FromError statusForeign = some 5 ∧
      Code demoEnv statusForeign = 5 ∧
      Code demoEnv (Wrap demoEnv [] statusForeign "lookup" []) = 5 :=
  ⟨fun h => error.noConfusion h, rfl, by decide,
    Code_status demoEnv [] statusForeign 5 "lookup" [] (fun h => error.noConfusion h)
      rfl (by decide)⟩

/-- C7: for every `withCode` value, `Cause()` and `Unwrap()` return the same
value, the stored cause (nil when there is none). -/
theorem Cause_eq_Unwrap (w : withCode) :
    w.Cause = w.Unwrap ∧ w.Cause = w.cause ∧ w.Unwrap = w.cause :=
  ⟨rfl, rfl, rfl⟩

/-! ## Short-form rendering -/

theorem intercalate_go_append (sep : String) (l : List String) :
    ∀ acc x : String,
      String.intercalate.go (acc ++ x) sep l = acc ++ String.intercalate.go x sep l := by
  induction l with
  | nil => intro acc x; rfl
  | cons a l ih =>
    intro acc x
    have h : acc ++ x ++ sep ++ a = acc ++ (x ++ sep ++ a) := by
      simp only [String.append_assoc]
    simp only [String.intercalate.go, h, ih]

theorem intercalate_cons_cons (sep a b : String) (l : List String) :
    sep.intercalate (a :: b :: l) = a ++ sep ++ sep.intercalate (b :: l) := by
  simp only [String.intercalate, String.intercalate.go]
  exact intercalate_go_append sep l (a ++ sep) b

theorem layers_ne_nil (w : withCode) : ∃ m rest, w.layers = m :: rest := by
  cases w with
  | mk st code cause message =>
    cases cause with
    | nil => exact ⟨_, _, rfl⟩
    | ptr c => exact ⟨_, _, rfl⟩
    | foreign f u => exact ⟨_, _, rfl⟩

theorem Error_eq_intercalate_layers (w : withCode) :
    w.Error = ": ".intercalate w.layers := by
  cases w with
  | mk st code cause message =>
    cases cause with
    | nil => rfl
    | foreign f u => rfl
    | ptr c =>
      obtain ⟨m, rest, hm⟩ := layers_ne_nil c
      have ih := Error_eq_intercalate_layers c
      simp only [withCode.Error, withCode.layers, ih, hm, intercalate_cons_cons]

/-- C8: for every `withCode` value `w`: without a cause `w.Error()` is the
message; with a cause it is the message, `": "` and `cause.Error()` (which is
defined for every non-nil cause).  Hence `Error()` of a chain is the messages of
its layers, outermost first, joined by `": "`, with nothing of the stacks; and
`a = New("layer1")`, `b = WrapC(a, 404, "layer2")`, `c = Wrap(b, "layer3")`
gives `c.Error() == "layer3: layer2: layer1"`. -/
theorem Error_short_form (w : withCode) :
    (w.cause = .nil → w.Error = w.message) ∧
      (∀ s, w.cause.Error = some s → w.Error = w.message ++ ": " ++ s) ∧
      (w.cause ≠ .nil → ∃ s, w.cause.Error = some s) ∧
      w.Error = ": ".intercalate w.layers ∧
      (∀ (env : Env) (cs0 cs1 cs2 : List Frame),
        (Wrap env cs2 (WrapC env cs1 (New env cs0 "layer1" []) 404 "layer2" [])
          "layer3" []).Error = some "layer3: layer2: layer1") := by
  refine ⟨?_, ?_, ?_, Error_eq_intercalate_layers w, fun _ _ _ _ => rfl⟩
  · intro h
    cases w with
    | mk st code cause message =>
      simp only [withCode.cause] at h
      subst h
      rfl
  · intro s hs
    cases w with
    | mk st code cause message =>
      cases cause with
      | nil => simp [withCode.cause, error.Error] at hs
      | ptr c =>
        simp only [withCode.cause, error.Error, Option.some.injEq] at hs
        subst hs
        rfl
      | foreign f u =>
        simp only [withCode.cause, error.Error, Option.some.injEq] at hs
        subst hs
        rfl
  · intro h
    cases w with
    | mk st code cause message =>
      cases cause with
      | nil => exact absurd rfl h
      | ptr c => exact ⟨_, rfl⟩
      | foreign f u => exact ⟨_, rfl⟩

theorem Error_short_form_witness :
    (withCode.mk (demoEnv.callers []) 404 plainForeign "read config").Error
      = "read config" ++ ": " ++ "EOF" :=
  (Error_short_form (withCode.mk (demoEnv.callers []) 404 plainForeign "read config")).2.1
    "EOF" rfl

/-! ## Round trips -/

/-- C9: `Code(New(...))` is 0 and `Code(WithCode(c, ...))` is `c`, and both
results have `Cause()` and `Unwrap()` nil; for a non-nil `err`, `Cause()` and
`Unwrap()` of `WrapC(err, c, ...)` and of `Wrap(err, ...)` are `err` itself. -/
theorem roundtrip_code_cause (env : Env) (cs : List Frame) (err : error) (c : Int)
    (format : String) (args : List any) :
    Code env (New env cs format args) = 0 ∧
      Code env (WithCode env cs c format args) = c ∧
      (∃ w, New env cs format args = .ptr w ∧ w.Cause = .nil ∧ w.Unwrap = .nil) ∧
      (∃ w, WithCode env cs c format args = .ptr w ∧ w.Cause = .nil ∧ w.Unwrap = .nil) ∧
      (err ≠ .nil →
        (∃ w, WrapC env cs err c format args = .ptr w ∧ w.Cause = err ∧ w.Unwrap = err) ∧
        (∃ w, Wrap env cs err format args = .ptr w ∧ w.Cause = err ∧ w.Unwrap = err)) := by
  refine ⟨rfl, rfl, ⟨_, rfl, rfl, rfl⟩, ⟨_, rfl, rfl, rfl⟩, ?_⟩
  intro h
  cases err with
  | nil => exact absurd rfl h
  | ptr w => exact ⟨⟨_, rfl, rfl, rfl⟩, ⟨_, rfl, rfl, rfl⟩⟩
  | foreign f u => exact ⟨⟨_, rfl, rfl, rfl⟩, ⟨_, rfl, rfl, rfl⟩⟩

theorem roundtrip_code_cause_witness :
    (∃ w, WrapC demoEnv [] statusForeign 404 "lookup %d" [any.int 3] = .ptr w ∧
        w.Cause = statusForeign ∧ w.Unwrap = statusForeign) ∧
      (∃ w, Wrap demoEnv [] statusForeign "lookup %d" [any.int 3] = .ptr w ∧
        w.Cause = statusForeign ∧ w.Unwrap = statusForeign) :=
  (roundtrip_code_cause demoEnv [] statusForeign 404 "lookup %d" [any.int 3]).2.2.2.2
    (fun h => error.noConfusion h)

theorem span_no_percent (l : List Char) (h : '%' ∉ l) :
    l.span (fun c => c != '%') = (l, []) := by
  induction l with
  | nil => rfl
  | cons a l ih =>
    have ha : a ≠ '%' := fun e => h (e ▸ List.mem_cons_self _ _)
    have hl : '%' ∉ l := fun e => h (List.mem_cons_of_mem _ e)
    have hspan := ih hl
    simp only [List.span_eq_take_drop] at hspan ⊢
    simp only [List.takeWhile_cons, List.dropWhile_cons, bne_iff_ne, ne_eq, ha,
      not_false_eq_true, decide_True, ite_true, Prod.mk.injEq] at hspan ⊢
    exact ⟨by rw [hspan.1], hspan.2⟩

theorem Sprintf_no_percent (env : Env) (m : String) (h : '%' ∉ m.data) :
    Sprintf env m [] = m := by
  simp only [Sprintf, doPrintf, span_no_percent m.data h]

/-- C10, as the code has it: for every message `m` that contains no `%`, passed
as the template with no operands, `New(m).Error()` and `WithCode(c, m).Error()`
are exactly `m`. -/
theorem Error_roundtrip_no_percent (env : Env) (cs : List Frame) (c : Int) (m : String)
    (h : '%' ∉ m.data) :
    (New env cs m []).Error = some m ∧ (WithCode env cs c m []).Error = some m := by
  simp only [New, WithCode, error.Error, withCode.Error, Sprintf_no_percent env m h,
    and_self]

theorem Error_roundtrip_no_percent_witness :
    (New demoEnv [] "layer1: not found" []).Error = some "layer1: not found" ∧
      (WithCode demoEnv [] 404 "layer1: not found" []).Error = some "layer1: not found" :=
  Error_roundtrip_no_percent demoEnv [] 404 "layer1: not found" (by decide)

/-- C10 as stated fails: the template `disk 100% full`, passed with no operands,
does not come back from `Error()`; `fmt.Sprintf` reads `% f` as a verb that lacks
its operand. -/
theorem Error_roundtrip_percent_altered :
    (New demoEnv [] "disk 100% full" []).Error = some "disk 100%!f(MISSING)ull" ∧
      (WithCode demoEnv [] 507 "disk 100% full" []).Error = some "disk 100%!f(MISSING)ull" ∧
      ¬ ((New demoEnv [] "disk 100% full" []).Error = some "disk 100% full" ∧
        (WithCode demoEnv [] 507 "disk 100% full" []).Error = some "disk 100% full") := by
  refine ⟨by decide, by decide, ?_⟩
  intro h
  exact absurd h.1 (by decide)

/-! ## Formatted rendering: plain mode and other verbs -/

/-- C11: for every `withCode` value `w`, `Format` with the verb `s`, with the
verb `q` (whatever the flags) and with the verb `v` without the `+` flag writes
exactly `w.Error()`. -/
theorem Format_plain (env : Env) (w : withCode) (plus : Bool) :
    w.Format env plus 's' = w.Error ∧ w.Format env plus 'q' = w.Error ∧
      w.Format env false 'v' = w.Error := by
  refine ⟨?_, ?_, ?_⟩ <;> simp [withCode.Format]

/-- C12, as the code has it: for every `withCode` value `w` and every verb other
than `v`, `s` and `q`, `Format` matches no case and writes nothing. -/
theorem Format_other_verb (env : Env) (w : withCode) (plus : Bool) (verb : Char)
    (hv : verb ≠ 'v') (hs : verb ≠ 's') (hq : verb ≠ 'q') :
    w.Format env plus verb = "" := by
  simp [withCode.Format, hv, hs, hq]

theorem Format_other_verb_witness :
    (withCode.mk (demoEnv.callers []) 404 .nil "not found").Format demoEnv false 'd' = "" :=
  Format_other_verb demoEnv _ false 'd' (by decide) (by decide) (by decide)

/-- C12 as stated fails: under the verb `d` (and `x`) `Format` writes nothing,
while `Error()` of the same value is `not found`. -/
theorem Format_other_verb_not_Error :
    (withCode.mk (demoEnv.callers []) 404 .nil "not found").Error = "not found" ∧
      (withCode.mk (demoEnv.callers []) 404 .nil "not found").Format demoEnv false 'd' = "" ∧
      (withCode.mk (demoEnv.callers []) 404 .nil "not found").Format demoEnv false 'x' = "" ∧
      (withCode.mk (demoEnv.callers []) 404 .nil "not found").Format demoEnv false 'd'
        ≠ (withCode.mk (demoEnv.callers []) 404 .nil "not found").Error := by
  refine ⟨rfl, rfl, rfl, ?_⟩
  decide

/-! ## Code extraction: precedence and depth -/

/-- C17: for every error that exposes a `Code()` accessor returning `k`,
`Code(err)` is `k`, whatever `status.FromError` would report for the same error
and also when `k` is 0. -/
theorem Code_accessor_first (env : Env) (err : error) (k : Int)
    (h : codeAccessor err = some k) : Code env err = k := by
  cases err with
  | nil => simp [codeAccessor] at h
  | ptr w => simp only [Code, h]
  | foreign f u => simp only [Code, h]

theorem Code_accessor_first_witness :
    codeAccessor zeroCodedStatus = some 0 ∧ demoEnv.FromError zeroCodedStatus = some 5 ∧
      Code demoEnv zeroCodedStatus = 0 :=
  ⟨rfl, by decide, Code_accessor_first demoEnv zeroCodedStatus 0 rfl⟩

theorem Code_Wrap_eq (env : Env) (cs : List Frame) (err : error) (format : String)
    (args : List any) : Code env (Wrap env cs err format args) = Code env err := by
  cases err with
  | nil => rfl
  | ptr w => rfl
  | foreign f u => rfl

/-- For an error of an outside type that has no `Code()` method and is not itself
a status error, and whose `Unwrap()` returns a `withCode`, `Code` under the gRPC
`status.FromError` is the status found below that `withCode`, else 500; the code
the `withCode` stores is not read. -/
theorem Code_over_coded_cause (env : Env) (henv : env.FromError = statusFromError)
    (f : Foreign) (st : stack) (k : Int) (cause : error) (message : String)
    (hcode : f.code = none) (hown : f.status = none) :
    Code env (.foreign f (.ptr (.mk st k cause message)))
      = (match cause.asStatus with
          | some s => Int.ofNat s
          | none => 500) := by
  simp only [Code, codeAccessor, hcode, henv, statusFromError, error.asStatus,
    withCode.asStatus, hown]

/-- C19, at the failing input `fmt.Errorf("outer: %w", WrapC(st, 404, "inner"))`
with `st` a gRPC status error of code 5: the value has no `Code()` accessor, is
not itself a status error, and its `Unwrap()` returns a `withCode` of code 404;
`Code` of that `withCode` is 404, yet `Code` of the value is 5, not 500, and
`Wrap` of it stores 5: `status.FromError` follows `Unwrap` down the chain. -/
theorem Code_walks_status_chain :
    (∃ f w, wrappedCoded = .foreign f (.ptr w) ∧ f.code = none ∧ f.status = none ∧
        w.code = 404 ∧ Code grpcEnv (.ptr w) = 404) ∧
      codeAccessor wrappedCoded = none ∧
      Code grpcEnv wrappedCoded = 5 ∧
      Code grpcEnv wrappedCoded ≠ 500 ∧
      Code grpcEnv (Wrap grpcEnv [mainFrame] wrappedCoded "ctx" []) = 5 := by
  refine ⟨⟨_, _, rfl, rfl, rfl, rfl, rfl⟩, rfl, ?_, ?_, ?_⟩ <;> decide

/-! ## Where a stored code comes from -/

/-- C15, as the code has it: the code stored by `New` is zero, by `WithCode` and
`WrapC` the code argument, and by `Wrap` either the code the wrapped error
carries (the result of its `Code()` accessor, else the numeric status that
`status.FromError` recognises) or, when the wrapped error carries none, the
fallback 500. -/
theorem stored_code_sources (env : Env) (cs : List Frame) (err : error) (c : Int)
    (format : String) (args : List any) :
    (∃ w, New env cs format args = .ptr w ∧ w.code = 0) ∧
      (∃ w, WithCode env cs c format args = .ptr w ∧ w.code = c) ∧
      (err ≠ .nil →
        (∃ w, WrapC env cs err c format args = .ptr w ∧ w.code = c) ∧
        (∃ w, Wrap env cs err format args = .ptr w ∧
          ((∃ k, codeAccessor err = some k ∧ w.code = k) ∨
            (codeAccessor err = none ∧ ∃ s : Nat, env.FromError err = some s ∧ w.code = s) ∨
            (codeAccessor err = none ∧ env.FromError err = none ∧ w.code = 500)))) := by
  refine ⟨⟨_, rfl, rfl⟩, ⟨_, rfl, rfl⟩, ?_⟩
  intro h
  have hsrc : (∃ k, codeAccessor err = some k ∧ Code env err = k) ∨
      (codeAccessor err = none ∧ ∃ s : Nat, env.FromError err = some s ∧ Code env err = s) ∨
      (codeAccessor err = none ∧ env.FromError err = none ∧ Code env err = 500) := by
    cases err with
    | nil => exact absurd rfl h
    | ptr w => exact Or.inl ⟨_, rfl, rfl⟩
    | foreign f u =>
      cases hc : f.code with
      | some k =>
        refine Or.inl ⟨k, ?_, ?_⟩
        · simp only [codeAccessor, hc]
        · simp only [Code, codeAccessor, hc]
      | none =>
        have hacc : codeAccessor (.foreign f u) = none := by simp only [codeAccessor, hc]
        cases hs : env.FromError (.foreign f u) with
        | some s =>
          refine Or.inr (Or.inl ⟨hacc, s, rfl, ?_⟩)
          simp only [Code, hacc, hs]
          rfl
        | none =>
          refine Or.inr (Or.inr ⟨hacc, rfl, ?_⟩)
          simp only [Code, hacc, hs]
  cases err with
  | nil => exact absurd rfl h
  | ptr w => exact ⟨⟨_, rfl, rfl⟩, ⟨_, rfl, hsrc⟩⟩
  | foreign f u => exact ⟨⟨_, rfl, rfl⟩, ⟨_, rfl, hsrc⟩⟩

theorem stored_code_sources_witness :
    (∃ w, WrapC demoEnv [mainFrame] statusForeign 404 "lookup" [] = .ptr w ∧ w.code = 404) ∧
      (∃ w, Wrap demoEnv [mainFrame] statusForeign "lookup" [] = .ptr w ∧
        ((∃ k, codeAccessor statusForeign = some k ∧ w.code = k) ∨
          (codeAccessor statusForeign = none ∧
            ∃ s : Nat, demoEnv.FromError statusForeign = some s ∧ w.code = s) ∨
          (codeAccessor statusForeign = none ∧ demoEnv.FromError statusForeign = none ∧
            w.code = 500))) :=
  (stored_code_sources demoEnv [mainFrame] statusForeign 404 "lookup" []).2.2
    (fun h => error.noConfusion h)

/-- C15 as stated fails: `Wrap` of an error that carries no code (no `Code()`
accessor, not recognised by `status.FromError`) takes no code argument and
stores 500, which is not zero. -/
theorem stored_code_fallback :
    codeAccessor plainForeign = none ∧ demoEnv.FromError plainForeign = none ∧
      ∃ w, Wrap demoEnv [mainFrame] plainForeign "read config" [] = .ptr w ∧
        w.code = 500 ∧ w.code ≠ 0 :=
  ⟨rfl, by decide, _, rfl, rfl, by decide⟩

/-! ## Inheritance through several wraps -/

theorem Code_wrapAll_eq (env : Env) (layers : List (List Frame × String × List any)) :
    ∀ err : error, Code env (wrapAll env err layers) = Code env err := by
  induction layers with
  | nil => intro err; rfl
  | cons l rest ih =>
    intro err
    obtain ⟨cs, format, args⟩ := l
    simp only [wrapAll]
    rw [ih, Code_Wrap_eq]

theorem Wrap_ne_nil (env : Env) (cs : List Frame) (err : error) (format : String)
    (args : List any) (h : err ≠ .nil) : Wrap env cs err format args ≠ .nil := by
  cases err with
  | nil => exact absurd rfl h
  | ptr w => exact fun e => error.noConfusion e
  | foreign f u => exact fun e => error.noConfusion e

theorem wrapAll_ne_nil (env : Env) (layers : List (List Frame × String × List any)) :
    ∀ err : error, err ≠ .nil → wrapAll env err layers ≠ .nil := by
  induction layers with
  | nil => intro err h; exact h
  | cons l rest ih =>
    intro err h
    obtain ⟨cs, format, args⟩ := l
    simp only [wrapAll]
    exact ih _ (Wrap_ne_nil env cs err format args h)

theorem Code_WrapC_eq (env : Env) (cs : List Frame) (err : error) (c : Int)
    (format : String) (args : List any) (h : err ≠ .nil) :
    Code env (WrapC env cs err c format args) = c := by
  cases err with
  | nil => exact absurd rfl h
  | ptr w => rfl
  | foreign f u => rfl

/-- C16: for every non-nil `err`, applying `Wrap` any number of times (`n ≥ 1`
layers in particular) gives a non-nil error whose `Code` is `Code(err)`; a
`WrapC(_, c, ...)` in between makes `c` the code of every `Wrap` layer above it;
and `a = New("layer1")`, `b = WrapC(a, 404, "layer2")`, `c = Wrap(b, "layer3")`
gives `Code(c) == 404`. -/
theorem Code_inheritance (env : Env) (err : error) (h : err ≠ .nil)
    (below above : List (List Frame × String × List any)) (cs : List Frame) (c : Int)
    (format : String) (args : List any) :
    (1 ≤ above.length → Code env (wrapAll env err above) = Code env err) ∧
      Code env (wrapAll env err above) = Code env err ∧
      wrapAll env err above ≠ .nil ∧
      Code env (wrapAll env (WrapC env cs (wrapAll env err below) c format args) above) = c ∧
      (∀ cs0 cs1 cs2 : List Frame,
        Code env (Wrap env cs2 (WrapC env cs1 (New env cs0 "layer1" []) 404 "layer2" [])
          "layer3" []) = 404) := by
  refine ⟨fun _ => Code_wrapAll_eq env above err, Code_wrapAll_eq env above err,
    wrapAll_ne_nil env above err h, ?_, fun _ _ _ => rfl⟩
  rw [Code_wrapAll_eq]
  exact Code_WrapC_eq env cs _ c format args (wrapAll_ne_nil env below err h)

theorem Code_inheritance_witness :
    Code demoEnv statusForeign = 5 ∧
      Code demoEnv (wrapAll demoEnv statusForeign
        [([mainFrame], "repo", []), ([mainFrame], "service", []), ([mainFrame], "handler", [])])
        = Code demoEnv statusForeign ∧
      Code demoEnv (wrapAll demoEnv (WrapC demoEnv [mainFrame]
        (wrapAll demoEnv statusForeign [([mainFrame], "repo", [])]) 404 "service" [])
        [([mainFrame], "handler", []), ([mainFrame], "server", [])]) = 404 :=
  have h := Code_inheritance demoEnv statusForeign (fun e => error.noConfusion e)
    [([mainFrame], "repo", [])]
    [([mainFrame], "handler", []), ([mainFrame], "server", [])] [mainFrame] 404 "service" []
  ⟨by decide,
    (Code_inheritance demoEnv statusForeign (fun e => error.noConfusion e) []
      [([mainFrame], "repo", []), ([mainFrame], "service", []), ([mainFrame], "handler", [])]
      [] 0 "" []).1 (by decide),
    h.2.2.2.1⟩

/-! ## Formatted rendering: `%+v` -/

theorem intercalate_go_snoc (sep x : String) (l : List String) :
    ∀ acc : String,
      String.intercalate.go acc sep (l ++ [x]) = String.intercalate.go acc sep l ++ sep ++ x := by
  induction l with
  | nil => intro acc; rfl
  | cons a l ih =>
    intro acc
    exact ih (acc ++ sep ++ a)

theorem intercalate_snoc (sep a x : String) (l : List String) :
    sep.intercalate ((a :: l) ++ [x]) = sep.intercalate (a :: l) ++ sep ++ x := by
  simp only [List.cons_append, String.intercalate]
  exact intercalate_go_snoc sep x l a

theorem chain_ne_nil (w : withCode) : ∃ l rest, w.chain = l :: rest := by
  cases w with
  | mk st code cause message =>
    cases cause with
    | nil => exact ⟨_, _, rfl⟩
    | ptr c => exact ⟨_, _, rfl⟩
    | foreign f u => exact ⟨_, _, rfl⟩

theorem formatPlus_eq_blocks (env : Env) (w : withCode) :
    w.formatPlus env
      = leafLead w ++ "\n".intercalate ((w.chain.map (withCode.block env)).reverse) := by
  cases w with
  | mk st code cause message =>
    cases cause with
    | nil =>
      simp only [withCode.formatPlus, leafLead, withCode.leaf, withCode.chain, List.map,
        List.reverse_cons, List.reverse_nil, List.nil_append, String.intercalate,
        String.intercalate.go, withCode.block, withCode.message, withCode.stack]
      rfl
    | foreign f u =>
      simp only [withCode.formatPlus, leafLead, withCode.leaf, withCode.chain, List.map,
        List.reverse_cons, List.reverse_nil, List.nil_append, String.intercalate,
        String.intercalate.go, withCode.block, withCode.message, withCode.stack,
        String.append_assoc]
    | ptr c =>
      have ih := formatPlus_eq_blocks env c
      obtain ⟨l, rest, hl⟩ := chain_ne_nil c
      have hrev : ∃ a t, ((c.chain.map (withCode.block env)).reverse) = a :: t := by
        cases hr : (c.chain.map (withCode.block env)).reverse with
        | nil =>
          rw [hl] at hr
          simp at hr
        | cons a t => exact ⟨a, t, rfl⟩
      obtain ⟨a, t, hat⟩ := hrev
      have hleaf : leafLead (.mk st code (.ptr c) message) = leafLead c := rfl
      rw [hleaf]
      simp only [withCode.formatPlus, withCode.chain, List.map, List.reverse_cons, ih, hat,
        intercalate_snoc, withCode.block, withCode.message, withCode.stack,
        String.append_assoc]

theorem layers_eq_chain (w : withCode) :
    w.layers = w.chain.map withCode.message ++
      (match w.leaf with
        | none => []
        | some f => [f.text]) := by
  cases w with
  | mk st code cause message =>
    cases cause with
    | nil => rfl
    | foreign f u => rfl
    | ptr c =>
      have ih := layers_eq_chain c
      simp only [withCode.layers, withCode.chain, withCode.leaf, List.map, List.cons_append, ih,
        withCode.message]

/-- C13: `Format` with the verb `v` and the `+` flag writes the `%+v` rendering
of the cause and a newline (when the cause is non-nil; the rendering of a cause
that is a `withCode` is its own `Format` with `+` and `v`), then the message,
then the rendering of the stack.  Hence the blocks (message and stack) of the
`withCode` layers of a chain come innermost first, the reverse of the order of
the messages in `Error()`. -/
theorem Format_plus_verbose (env : Env) (w : withCode) :
    (w.cause = .nil → w.Format env true 'v' = w.message ++ env.stackFormat w.stack) ∧
      (w.cause ≠ .nil → w.Format env true 'v'
        = w.cause.fprintPlusV env ++ "\n" ++ w.message ++ env.stackFormat w.stack) ∧
      (∀ c, w.cause = .ptr c → w.cause.fprintPlusV env = c.Format env true 'v') ∧
      w.Format env true 'v'
        = leafLead w ++ "\n".intercalate ((w.chain.map (withCode.block env)).reverse) ∧
      w.Error = ": ".intercalate
        (w.chain.map withCode.message ++
          (match w.leaf with
            | none => []
            | some f => [f.text])) := by
  have hfmt : ∀ x : withCode, x.Format env true 'v' = x.formatPlus env := fun x => by
    simp [withCode.Format]
  refine ⟨?_, ?_, ?_, ?_, ?_⟩
  · intro h
    cases w with
    | mk st code cause message =>
      simp only [withCode.cause] at h
      subst h
      rw [hfmt]
      rfl
  · intro h
    cases w with
    | mk st code cause message =>
      cases cause with
      | nil => exact absurd rfl h
      | ptr c =>
        rw [hfmt]
        simp only [withCode.cause, error.fprintPlusV, hfmt]
        rfl
      | foreign f u =>
        rw [hfmt]
        rfl
  · intro c hc
    rw [hc]
    rfl
  · rw [hfmt]
    exact formatPlus_eq_blocks env w
  · rw [← layers_eq_chain]
    exact Error_eq_intercalate_layers w

theorem Format_plus_verbose_witness :
    (withCode.mk { frames := [mainFrame] } 404
        (.ptr (.mk { frames := [mainFrame] } 0 .nil "layer1")) "layer2").Format demoEnv true 'v'
      = "layer1\nmain.run\n\tmain.go" ++ "\n" ++ "layer2" ++ "\nmain.run\n\tmain.go" :=
  (Format_plus_verbose demoEnv (withCode.mk { frames := [mainFrame] } 404
    (.ptr (.mk { frames := [mainFrame] } 0 .nil "layer1")) "layer2")).2.1
    (fun h => error.noConfusion h)

/-- C18: for every error `e` of an outside type with no formatting hook and
`w = WrapC(e, c, ...)`, the `%+v` rendering of `w` is `e.Error()`, a newline, the
message of `w` (the formatted template; the template itself when it has no
operands and no `%`) and the rendering of the stack of `w`: the leaf gives its
plain text and no stack. -/
theorem Format_foreign_leaf (env : Env) (cs : List Frame) (f : Foreign) (u : error)
    (c : Int) (format : String) (args : List any) (hook : f.verbose = none) :
    (error.foreign f u).Error = some f.text ∧
      ∃ w, WrapC env cs (.foreign f u) c format args = .ptr w ∧
        w.message = Sprintf env format args ∧
        ('%' ∉ format.data → args = [] → w.message = format) ∧
        w.Format env true 'v' = f.text ++ "\n" ++ w.message ++ env.stackFormat w.stack := by
  refine ⟨rfl, _, rfl, rfl, ?_, ?_⟩
  · intro hp ha
    subst ha
    exact Sprintf_no_percent env format hp
  · simp [withCode.Format, withCode.formatPlus, Foreign.plusV, hook, withCode.message,
      withCode.stack]

theorem Format_foreign_leaf_witness :
    ∃ w, WrapC demoEnv [mainFrame] plainForeign 404 "read config" [] = .ptr w ∧
      w.message = "read config" ∧
      w.Format demoEnv true 'v' = "EOF" ++ "\n" ++ w.message ++ demoEnv.stackFormat w.stack :=
  have h := (Format_foreign_leaf demoEnv [mainFrame]
    { text := "EOF", code := none, verbose := none } .nil 404 "read config" [] rfl).2
  h.elim (fun w hw => ⟨w, hw.1, hw.2.2.1 (by decide) rfl, hw.2.2.2⟩)

/-! ## Stack capture -/

/-- C14 (on the capture as the spec describes it): for each of `New`,
`WithCode`, `WrapC` and `Wrap`, called from a function whose frame `caller` is
not one of this package, the first frame of the stack stored in the result is
`caller`; `Wrap` reaches the capture through its own frame and the frame of
`WrapC`, both left out. -/
theorem capture_first_frame (env : Env) (hcap : env.callers = callers)
    (caller : Frame) (rest : List Frame) (happ : isLibFrame caller = false)
    (err : error) (herr : err ≠ .nil) (c : Int) (format : String) (args : List any) :
    (∃ w, New env (caller :: rest) format args = .ptr w ∧
        w.stack.frames.head? = some caller) ∧
      (∃ w, WithCode env (caller :: rest) c format args = .ptr w ∧
        w.stack.frames.head? = some caller) ∧
      (∃ w, WrapC env (caller :: rest) err c format args = .ptr w ∧
        w.stack.frames.head? = some caller) ∧
      (∃ w, Wrap env (caller :: rest) err format args = .ptr w ∧
        w.stack.frames.head? = some caller) := by
  have hlib : ∀ (name : String) (line : Nat), isLibFrame (libFrame name line) = true := by
    intro name line
    simp [isLibFrame, libFrame, String.data_append]
  have h1 : ∀ (name : String) (line : Nat),
      (callers (libFrame name line :: caller :: rest)).frames.head? = some caller := by
    intro name line
    simp [callers, List.filter, hlib, happ]
  have h2 : ∀ (n1 n2 : String) (l1 l2 : Nat),
      (callers (libFrame n1 l1 :: libFrame n2 l2 :: caller :: rest)).frames.head?
        = some caller := by
    intro n1 n2 l1 l2
    simp [callers, List.filter, hlib, happ]
  cases err with
  | nil => exact absurd rfl herr
  | ptr x =>
    refine ⟨⟨_, rfl, ?_⟩, ⟨_, rfl, ?_⟩, ⟨_, rfl, ?_⟩, ⟨_, rfl, ?_⟩⟩
    · simp only [withCode.stack, hcap]; exact h1 _ _
    · simp only [withCode.stack, hcap]; exact h1 _ _
    · simp only [withCode.stack, hcap]; exact h1 _ _
    · simp only [withCode.stack, hcap]; exact h2 _ _ _ _
  | foreign f u =>
    refine ⟨⟨_, rfl, ?_⟩, ⟨_, rfl, ?_⟩, ⟨_, rfl, ?_⟩, ⟨_, rfl, ?_⟩⟩
    · simp only [withCode.stack, hcap]; exact h1 _ _
    · simp only [withCode.stack, hcap]; exact h1 _ _
    · simp only [withCode.stack, hcap]; exact h1 _ _
    · simp only [withCode.stack, hcap]; exact h2 _ _ _ _

theorem capture_first_frame_witness :
    (∃ w, New captureEnv [mainFrame] "layer1" [] = .ptr w ∧
        w.stack.frames.head? = some mainFrame) ∧
      (∃ w, Wrap captureEnv [mainFrame] plainForeign "ctx" [] = .ptr w ∧
        w.stack.frames.head? = some mainFrame) :=
  have h := capture_first_frame captureEnv rfl mainFrame [] (by decide) plainForeign
    (fun e => error.noConfusion e) 0 "layer1" []
  have h2 := capture_first_frame captureEnv rfl mainFrame [] (by decide) plainForeign
    (fun e => error.noConfusion e) 0 "ctx" []
  ⟨h.1, h2.2.2.2⟩

end Cerrors
